import Mathlib

/-!
Verification of the `imaget` image-downloading tool against its
natural-language specification.

The repository is Go; the relevant functions are shallowly embedded here as
executable Lean definitions.  Strings are modelled by Lean `String` (the
inputs of interest are ASCII, so Go's byte-oriented string operations agree
with `Char`-list operations), bytes by `Nat` values below 256.  External
collaborators of the program (the HTTP client, the `grab` download library,
the filesystem, the Go scheduler's `select` choice) are modelled as explicit
parameters: a fetch oracle, a filesystem association list, and a boolean
schedule resolving each `select` between a ready cancellation case and a
ready receive case.

Source layout: `cmd/imaget.go` and `imaget.go` (the current revision of the
command and of the library), plus an earlier revision of both files that
still carried a shell-pattern (`-p`) filter; claims cite both revisions.
-/

namespace Imaget

/-! ## Reference Extractor

Embedding of `imageRegex = (http(s?):)([/|.|\w|\s|-])*\.(?:jpg|gif|png)`
and `imageRegex.FindAllString(s, -1)` from `imaget.go`.

Go's `regexp` package uses leftmost-first semantics: the match starts as
early as possible, `s?` and the greedy star consume as much as possible
while the remainder of the pattern can still match, and `FindAllString`
returns successive non-overlapping matches, each search resuming at the end
of the previous match.  For this concrete pattern that means: at a given
start position the scheme `http:`/`https:` must literally appear (with `s`
preferred when present), the starred character class then spans a maximal
run, and the mandatory `\.(jpg|gif|png)` forces the match to end at the
last position inside that run carrying such a suffix.
-/

/-- Embeds `\w` of Go regexp: `[0-9A-Za-z_]`. -/
def isWordChar (c : Char) : Bool :=
  (('0' ≤ c && c ≤ '9') || ('A' ≤ c && c ≤ 'Z') || ('a' ≤ c && c ≤ 'z') || c = '_')

/-- Embeds `\s` of Go regexp: `[\t\n\f\r ]`. -/
def isSpaceChar (c : Char) : Bool :=
  (c = '\t' || c = '\n' || c = '\x0c' || c = '\r' || c = ' ')

/-- The character class `[/|.|\w|\s|-]` of `imageRegex` (inside a class,
`|` is a literal). -/
def isClassChar (c : Char) : Bool :=
  (c = '/' || c = '|' || c = '.' || isWordChar c || isSpaceChar c || c = '-')

/-- Does the list end with `.jpg`, `.gif` or `.png`?  (The mandatory tail
`\.(?:jpg|gif|png)` of `imageRegex`.) -/
def hasImgSuffix (l : List Char) : Bool :=
  (".jpg".data.isSuffixOf l || ".gif".data.isSuffixOf l || ".png".data.isSuffixOf l)

/-- Length of the scheme part `(http(s?):)` matched at the head of `cs`:
`https:` (greedy `s?`) is preferred over `http:`; `none` when neither
matches here. -/
def schemeLen (cs : List Char) : Option Nat :=
  if "https:".data.isPrefixOf cs then some 6
  else if "http:".data.isPrefixOf cs then some 5
  else none

/-- The greedy star followed by the mandatory extension: the largest `k`
such that the first `k` characters of `run` end in an image extension. -/
def lastExtEnd (run : List Char) : Option Nat :=
  (List.range (run.length + 1)).reverse.find? (fun k => hasImgSuffix (run.take k))

/-- One leftmost-first scan step of `FindAllString`: try a match starting at
the head of `cs`; on success emit it and resume after its end, otherwise
advance one character.  `fuel` bounds the recursion; every step consumes at
least one character, so `fuel = cs.length` never runs out. -/
def findAllAux : Nat → List Char → List String
  | 0, _ => []
  | fuel + 1, cs =>
    match cs with
    | [] => []
    | _ :: rest =>
      match schemeLen cs with
      | none => findAllAux fuel rest
      | some len =>
        match lastExtEnd ((cs.drop len).takeWhile isClassChar) with
        | none => findAllAux fuel rest
        | some k => String.mk (cs.take (len + k)) :: findAllAux fuel (cs.drop (len + k))

/-- Embeds `imageRegex.FindAllString(string(s), -1)` from `extractImageURLs`. -/
def findAllImages (s : String) : List String :=
  findAllAux s.data.length s.data

/-- The deduplication loop of `extractImageURLs`: `c` is the `map[string]
struct{}` of already-seen URLs (a list models the key set), `b` the output
slice being appended to. -/
def dedupAux (c : List String) (b : List String) : List String → List String
  | [] => b
  | s :: rest =>
    if c.contains s then dedupAux c b rest
    else dedupAux (s :: c) (b ++ [s]) rest

/-- The regex-filter loop of the current `extractImageURLs`: keep `s` when
`d.Regex.MatchString(s)`. -/
def filterAux (re : String → Bool) : List String → List String
  | [] => []
  | s :: rest => if re s then s :: filterAux re rest else filterAux re rest

/-- Embeds `Download.extractImageURLs` (current revision, `imaget.go`): find all
image URLs, deduplicate keeping the first occurrence, then filter by the
optional compiled regex `d.Regex` (modelled as its `MatchString`
predicate). -/
def extractImageURLs (regex : Option (String → Bool)) (s : String) : List String :=
  let a := findAllImages s
  let b := dedupAux [] [] a
  match regex with
  | some re => filterAux re b
  | none => b

/-- Embeds `MatchString` of the compiled filter regex `(jpg|png)$` used in the
spec's scenario: some match anchored at the end of the text, i.e. the
string ends in `jpg` or `png`. -/
def regexJpgPng (s : String) : Bool :=
  ("jpg".data.isSuffixOf s.data || "png".data.isSuffixOf s.data)

/-! ## `path/filepath.Match`

The earlier revision of the library filters extracted URLs through a shell
pattern with Go's `filepath.Match`.  `Match` belongs to the Go standard
library (an external collaborator of this repository), so it is embedded
here operationally, function by function (`scanChunk`, `getEsc`,
`matchChunk`, `Match`), over `Char` lists; the inputs of interest are
ASCII, where Go's byte/rune distinction is immaterial.  The single error
value `ErrBadPattern` is modelled by `Except Unit`.  Recursions whose Go
counterpart advances a string index carry a `fuel` argument so that they
stay structural (hence kernel-reducible); every loop consumes at least one
character of the list bounding its fuel, so the fuel never runs out. -/

/-- Embeds `getEsc(chunk)`: one (possibly escaped) character of a class range. -/
def getEsc : List Char → Except Unit (Char × List Char)
  | [] => .error ()
  | c :: rest =>
    if c = '-' || c = ']' then .error ()
    else if c = '\\' then
      match rest with
      | [] => .error ()
      | r :: rest2 => if rest2.isEmpty then .error () else .ok (r, rest2)
    else if rest.isEmpty then .error () else .ok (c, rest)

/-- The range-parsing loop inside `matchChunk`'s `[` case: reads ranges
until the closing `]` (legal only after at least one range), accumulating
whether the rune `r` fell in any range. -/
def parseRanges : Nat → Char → List Char → Bool → Nat → Except Unit (List Char × Bool)
  | 0, _, _, _, _ => .error ()
  | fuel + 1, r, chunk, matched, nrange =>
    match chunk with
    | ']' :: rest =>
      if nrange > 0 then .ok (rest, matched)
      else .error ()
    | _ =>
      match getEsc chunk with
      | .error e => .error e
      | .ok (lo, ch1) =>
        match ch1 with
        | '-' :: ch2 =>
          match getEsc ch2 with
          | .error e => .error e
          | .ok (hi, ch3) =>
            parseRanges fuel r ch3 (matched || (decide (lo ≤ r) && decide (r ≤ hi))) (nrange + 1)
        | _ =>
          parseRanges fuel r ch1 (matched || (decide (lo ≤ r) && decide (r ≤ lo))) (nrange + 1)

/-- Embeds `matchChunk(chunk, s)`: matches the wildcard-free `chunk` against a
prefix of `s`, returning the unmatched rest of `s` and whether it matched;
after a failure it keeps scanning `chunk` for well-formedness.  Returns
`(rest, ok)` or the bad-pattern error. -/
def matchChunk : Nat → List Char → List Char → Bool → Except Unit (List Char × Bool)
  | 0, _, _, _ => .error ()
  | fuel + 1, chunk, s, failed0 =>
    match chunk with
    | [] => if failed0 then .ok ([], false) else .ok (s, true)
    | c :: chunkRest =>
      let failed := failed0 || s.isEmpty
      if c = '[' then
        let rs : Char × List Char :=
          if failed then (Char.ofNat 0, s)
          else match s with
            | [] => (Char.ofNat 0, s)
            | x :: xs => (x, xs)
        let negch : Bool × List Char :=
          match chunkRest with
          | '^' :: t => (true, t)
          | _ => (false, chunkRest)
        match parseRanges (negch.2.length + 1) rs.1 negch.2 false 0 with
        | .error e => .error e
        | .ok (chunk', matchd) =>
          matchChunk fuel chunk' rs.2 (failed || (matchd == negch.1))
      else if c = '?' then
        if failed then matchChunk fuel chunkRest s true
        else match s with
          | [] => matchChunk fuel chunkRest s true
          | x :: xs => matchChunk fuel chunkRest xs (x == '/')
      else if c = '\\' then
        match chunkRest with
        | [] => .error ()
        | d :: rest2 =>
          if failed then matchChunk fuel rest2 s true
          else match s with
            | [] => matchChunk fuel rest2 s true
            | x :: xs => matchChunk fuel rest2 xs (d != x)
      else
        if failed then matchChunk fuel chunkRest s true
        else match s with
          | [] => matchChunk fuel chunkRest s true
          | x :: xs => matchChunk fuel chunkRest xs (c != x)

/-- The leading-`*` stripping loop at the top of `scanChunk`. -/
def stripStars : List Char → Bool × List Char
  | '*' :: rest => (true, (stripStars rest).2)
  | p => (false, p)

/-- The scan loop of `scanChunk`: split off the segment up to the next
top-level `*` (escapes skip a character; `*` inside `[...]` is literal). -/
def scanChunkAux : List Char → Bool → List Char × List Char
  | [], _ => ([], [])
  | c :: rest, inrange =>
    if c = '\\' then
      match rest with
      | [] => ([c], [])
      | d :: rest2 =>
        let ab := scanChunkAux rest2 inrange
        (c :: d :: ab.1, ab.2)
    else if c = '[' then
      let ab := scanChunkAux rest true
      (c :: ab.1, ab.2)
    else if c = ']' then
      let ab := scanChunkAux rest false
      (c :: ab.1, ab.2)
    else if c = '*' && !inrange then ([], c :: rest)
    else
      let ab := scanChunkAux rest inrange
      (c :: ab.1, ab.2)

/-- Embeds `scanChunk(pattern) = (star, chunk, rest)`. -/
def scanChunk (pattern : List Char) : Bool × List Char × List Char :=
  let sp := stripStars pattern
  let ab := scanChunkAux sp.2 false
  (sp.1, ab.1, ab.2)

/-- The `star`-backtracking inner loop of `Match`: try `matchChunk` at each
later start inside the current path segment (stopping at `/`).  Returns the
rest of the name to continue with, `none` when the loop exhausts. -/
def goMatchStarAux (chunk rest : List Char) : List Char → Except Unit (Option (List Char))
  | [] => .ok none
  | c :: tailn =>
    if c = '/' then .ok none
    else
      match matchChunk (chunk.length + 1) chunk tailn false with
      | .error e => .error e
      | .ok (t, ok) =>
        if ok then
          if rest.isEmpty && !t.isEmpty then goMatchStarAux chunk rest tailn
          else .ok (some t)
        else goMatchStarAux chunk rest tailn

/-- The `Pattern:` loop of `filepath.Match`.  Each iteration continues with
`rest`, which is strictly shorter than `pattern`, so `fuel =
pattern.length + 1` suffices. -/
def goMatchAux : Nat → List Char → List Char → Except Unit Bool
  | 0, _, _ => .error ()
  | fuel + 1, pattern, name =>
    match pattern with
    | [] => .ok name.isEmpty
    | _ :: _ =>
      let sc := scanChunk pattern
      let star := sc.1
      let chunk := sc.2.1
      let rest := sc.2.2
      if star && chunk.isEmpty then .ok (!name.contains '/')
      else
        match matchChunk (chunk.length + 1) chunk name false with
        | .error e => .error e
        | .ok (t, tok) =>
          if tok && (t.isEmpty || !rest.isEmpty) then goMatchAux fuel rest t
          else if star then
            match goMatchStarAux chunk rest name with
            | .error e => .error e
            | .ok (some t') => goMatchAux fuel rest t'
            | .ok none => .ok false
          else .ok false

/-- Embeds `filepath.Match(pattern, name)`. -/
def goMatch (pattern name : List Char) : Except Unit Bool :=
  goMatchAux (pattern.length + 1) pattern name

/-- Embeds `filepath.Match` as the pair `(match, err-is-non-nil)` the old
extractor inspects; on `ErrBadPattern`, Go returns `matched = false`. -/
def filepathMatch (pattern s : String) : Bool × Bool :=
  match goMatch pattern.data s.data with
  | .ok m => (m, false)
  | .error _ => (false, true)

/-! ## Legacy extractor and flag parsing

The earlier revision of `extractImageURLs` filters the deduplicated list
through an optional shell pattern and an optional regex:

```
for _, s := range b {
    if d.Pattern != "" {
        if match, err := filepath.Match(d.Pattern, s); err == nil || !match {
            continue
        }
    }
    if d.Regex != nil && !d.Regex.MatchString(s) {
        continue
    }
    a = append(a, s)
}
```
-/

/-- The filter loop of the legacy `extractImageURLs`.  A candidate is
skipped when the pattern check hits `err == nil || !match`, then when the
regex does not match. -/
def filterOldAux (pat : String) (regex : Option (String → Bool)) : List String → List String
  | [] => []
  | s :: rest =>
    if (pat != "") && (!(filepathMatch pat s).2 || !(filepathMatch pat s).1) then
      filterOldAux pat regex rest
    else if (match regex with | some re => !re s | none => false) then
      filterOldAux pat regex rest
    else s :: filterOldAux pat regex rest

/-- Embeds `Download.extractImageURLs` of the legacy revision (`imaget.go`, old):
find, deduplicate, then run the pattern/regex filter loop. -/
def extractImageURLsOld (pat : String) (regex : Option (String → Bool)) (s : String) :
    List String :=
  filterOldAux pat regex (dedupAux [] [] (findAllImages s))

/-- Embeds `strings.HasPrefix`. -/
def hasPrefixGo (s pre : String) : Bool := pre.data.isPrefixOf s.data

/-- The legacy `Download` parameters relevant to parsing. -/
structure DownloadOld where
  src : String
  dst : String
  pattern : String
  regex : Option (String → Bool)

/-- Embeds `parse` of the legacy `cmd/main.go`.  `compile` models
`regexp.Compile` (`none` = compile error); the `-p` pattern string is
passed through unvalidated.  An empty `-u` calls `usage()` (exit),
modelled as an error. -/
def parseOld (compile : String → Option (String → Bool)) (u dst p r : String) :
    Except String DownloadOld :=
  if u = "" then .error "usage"
  else
    let u' := if hasPrefixGo u "http" then u else "http://" ++ u
    if r ≠ "" then
      match compile r with
      | none => .error "error compiling regex (-r flag)"
      | some re => .ok ⟨u', dst, p, some re⟩
    else .ok ⟨u', dst, p, none⟩

/-- Embeds `Main` of the legacy `cmd/main.go`, up to the point extraction runs:
on a parse error it returns before `download.Start`, so no extraction (and
no transfer) is attempted; otherwise the extraction result is reached. -/
def MainOld (compile : String → Option (String → Bool)) (u dst p r page : String) :
    Except String (List String) :=
  match parseOld compile u dst p r with
  | .error e => .error e
  | .ok d => .ok (extractImageURLsOld d.pattern d.regex page)

/-- The current `Download` parameters (`cmd/imaget.go` `parse`). -/
structure DownloadCur where
  src : String
  dst : String
  regex : Option (String → Bool)
  skipAccept : Bool
  saveFlat : Bool

/-- Embeds `parse` of the current `cmd/imaget.go`: compile `-r` (error is
returned to the caller), silent implies skip-accept. -/
def parse (compile : String → Option (String → Bool)) (u dst r : String)
    (y f s : Bool) : Except String DownloadCur :=
  if u = "" then .error "usage"
  else
    let u' := if hasPrefixGo u "http" then u else "http://" ++ u
    if r ≠ "" then
      match compile r with
      | none => .error "error compiling regex (-r flag)"
      | some re => .ok ⟨u', dst, some re, s || y, f⟩
    else .ok ⟨u', dst, none, s || y, f⟩

/-- Embeds `Main` of the current `cmd/imaget.go` up to extraction, as for
`MainOld`. -/
def MainCur (compile : String → Option (String → Bool)) (u dst r : String)
    (y f sil : Bool) (page : String) : Except String (List String) :=
  match parse compile u dst r y f sil with
  | .error e => .error e
  | .ok d => .ok (extractImageURLs d.regex page)

/-! ## Transfer pipeline

`Download.Start` runs the producer `downloadImages` (one fetch at a time,
results pushed onto the bounded channel `files`) concurrently with the
consumer `copyFilesToDst`.  The network is the fetch oracle
`String → FetchOutcome`; `grab`'s cancellation errors
(`context.Canceled` / `context.DeadlineExceeded`) are the `cancelErr`
outcome, any other download error is `err`. -/

/-- Result of one `downloadImage` call. -/
inductive FetchOutcome where
  | ok (tmpPath : String)
  | err
  | cancelErr
deriving DecidableEq, Repr

/-- The `file{path, url}` record sent over the `files` channel. -/
structure GoFile where
  path : String
  url : String
deriving DecidableEq, Repr

/-- Embeds `Download.downloadImages`: iterate the URL list; a successful fetch is
enqueued; a cancellation/timeout error returns from the whole loop; any
other error just continues.  Returns `(attempted urls, enqueued files)`. -/
def downloadImages (fetch : String → FetchOutcome) :
    List String → List String × List GoFile
  | [] => ([], [])
  | u :: rest =>
    match fetch u with
    | .ok p =>
      let ar := downloadImages fetch rest
      (u :: ar.1, ⟨p, u⟩ :: ar.2)
    | .cancelErr => ([u], [])
    | .err =>
      let ar := downloadImages fetch rest
      (u :: ar.1, ar.2)

/-- Embeds `copyFilesToDst`: the consumer loop

```
for {
    select {
    case <-ctx.Done():
        return
    case f, ok := <-files:
        if !ok { return }
        if err := copyFileToDst(flat, dst, f); err != nil { ... }
    }
}
```

`cancelled` says whether `ctx.Done()` is closed; when it is, both select
cases are ready and Go picks one pseudo-randomly — `sched` resolves each
such choice (`true` = take the `ctx.Done()` case; an exhausted schedule
defaults to receiving).  `queue` is the remaining channel content, closed
at its end by the producer; `cf f = true` models a `copyFileToDst` error
for `f` (reported, not written, loop continues).  Returns the files whose
sink write was performed. -/
def copyFilesToDst : Bool → List Bool → (GoFile → Bool) → List GoFile → List GoFile
  | _, _, _, [] => []
  | true, true :: _, _, _ :: _ => []
  | true, false :: sched, cf, f :: rest =>
    if cf f then copyFilesToDst true sched cf rest
    else f :: copyFilesToDst true sched cf rest
  | true, [], cf, f :: rest =>
    if cf f then copyFilesToDst true [] cf rest
    else f :: copyFilesToDst true [] cf rest
  | false, sched, cf, f :: rest =>
    if cf f then copyFilesToDst false sched cf rest
    else f :: copyFilesToDst false sched cf rest

/-! ## Destination sink and `Download.Start`

Filesystem actions taken by `newDst`, the sink writes and `dst.Close` are
recorded as an effect trace.  `filepath.Abs` is modelled as the identity
(the destinations considered are already absolute and clean), and the
accept screen is taken as passed (`SkipAccept`). -/

/-- Scanner for `filepathExtGo`, over the reversed character list. -/
def extScanAux : List Char → List Char → List Char
  | [], _ => []
  | b :: rest, acc =>
    if b = '/' then []
    else if b = '.' then b :: acc
    else extScanAux rest (b :: acc)

/-- Embeds `filepath.Ext`: scan from the end, stop at a path separator, return
from the last `.` (inclusive); `""` when there is none. -/
def filepathExtGo (p : String) : String :=
  String.mk (extScanAux p.data.reverse [])

/-- Embeds `filepath.Dir` for the clean absolute paths used here: everything
before the last `/` (`"/"` at the root, `"."` when there is no slash). -/
def filepathDirGo (p : String) : String :=
  match p.data.reverse.dropWhile (· != '/') with
  | [] => "."
  | ['/'] => "/"
  | '/' :: rest => String.mk rest.reverse
  | _ => "."

/-- Embeds `filepath.Base` for the paths used here: everything after the last
`/`. -/
def filepathBaseGo (p : String) : String :=
  String.mk (p.data.reverse.takeWhile (· != '/')).reverse

/-- The two `destination` implementations selected by `newDst`. -/
inductive DstKind where
  | dir (path : String)
  | zip (path : String)
deriving DecidableEq, Repr

/-- Filesystem-visible actions of a run. -/
inductive RunEffect where
  | mkdirAll (d : String)
  | createFile (p : String)
  | sinkWrite (rel : String)
  | closeDst
deriving DecidableEq, Repr

/-- Embeds `newDst`: no extension selects the directory destination (no
filesystem action at construction); `.zip` creates the parent directory
chain and the archive file itself; anything else is the fatal
`unsupported destination` error. -/
def newDst (dst : String) : Except String (DstKind × List RunEffect) :=
  match filepathExtGo dst with
  | "" => .ok (.dir dst, [])
  | ".zip" => .ok (.zip dst, [.mkdirAll (filepathDirGo dst), .createFile dst])
  | _ => .error "unsupported destination"

/-- Embeds `strings.TrimPrefix` on character lists. -/
def trimPrefixL (s pre : List Char) : List Char :=
  if pre.isPrefixOf s then s.drop pre.length else s

/-- The hierarchical branch of `copyFileToDst`:
`strings.TrimPrefix(file.url, "http://")` then
`strings.TrimPrefix(dstFile, "https://")`. -/
def dstFileHier (url : String) : String :=
  String.mk (trimPrefixL (trimPrefixL url.data "http://".data) "https://".data)

/-- The destination-relative name `copyFileToDst` passes to
`dst.create`: flat uses `filepath.Base` of the cache path, hierarchical
strips the scheme from the URL. -/
def dstFileFor (flat : Bool) (f : GoFile) : String :=
  if flat then filepathBaseGo f.path else dstFileHier f.url

/-- The hierarchical naming rule as the spec words it — the source URL
with its `http://` or `https://` scheme prefix stripped and nothing else
changed — stated as a reference for comparison with the code's
`dstFileHier`. -/
def stripSchemeSpec (u : List Char) : List Char :=
  if "https://".data.isPrefixOf u then u.drop 8
  else if "http://".data.isPrefixOf u then u.drop 7
  else u

/-- Everything `Download.Start` produces that the claims mention: the
destination, the extraction result, the producer/consumer outcomes, the
`Saved` count printed by the deferred summary (`len(imageURLs)`), and the
effect trace (destination construction, one `sinkWrite` per consumer
write, `dst.Close` once via `defer`). -/
structure RunResult where
  dst : DstKind
  found : List String
  attempted : List String
  enqueued : List GoFile
  written : List GoFile
  summarySaved : Nat
  effects : List RunEffect
deriving Repr

/-- Embeds `Download.Start` with the accept screen passed: prepare the
destination, extract, run the producer and the consumer, close the
destination. -/
def startRun (dstS page : String) (regex : Option (String → Bool))
    (fetch : String → FetchOutcome) (cancelled : Bool) (sched : List Bool)
    (cf : GoFile → Bool) (flat : Bool) : Except String RunResult :=
  match newDst dstS with
  | .error e => .error e
  | .ok (dk, eff0) =>
    let found := extractImageURLs regex page
    let ar := downloadImages fetch found
    let written := copyFilesToDst cancelled sched cf ar.2
    .ok { dst := dk, found := found, attempted := ar.1, enqueued := ar.2,
          written := written, summarySaved := found.length,
          effects := eff0 ++ written.map (fun f => .sinkWrite (dstFileFor flat f))
            ++ [.closeDst] }

/-! ## `base64Filename`

`base64Filename(imageURL) = base64.URLEncoding.EncodeToString([]byte(imageURL))
+ filepath.Ext(imageURL)` names the cache file (and, through
`filepath.Base` of the cache path, the flat destination file).  Go's
`[]byte` conversion yields the UTF-8 bytes of the URL, so a URL is
modelled here as its byte list (`Nat` values below 256).  `URLEncoding`
is padded base64 over the alphabet `A-Za-z0-9-_` with `=` padding. -/

/-- The `base64.URLEncoding` alphabet as ASCII byte values. -/
def b64Alphabet : List Nat :=
  "ABCDEFGHIJKLMNOPQRSTUVWXYZabcdefghijklmnopqrstuvwxyz0123456789-_".data.map Char.toNat

/-- The output byte for a 6-bit group. -/
def b64Char (i : Nat) : Nat := b64Alphabet.getD i 0

/-- The ASCII code of the padding character `=`. -/
def padByte : Nat := 61

/-- Embeds `base64.URLEncoding.EncodeToString`, producing the ASCII bytes of the
encoding: 3-byte groups become 4 alphabet bytes; a 2-byte tail becomes 3
alphabet bytes and one `=`; a 1-byte tail two alphabet bytes and `==`. -/
def b64EncodeBytes : List Nat → List Nat
  | b1 :: b2 :: b3 :: rest =>
    b64Char (b1 / 4) :: b64Char ((b1 % 4) * 16 + b2 / 16) ::
      b64Char ((b2 % 16) * 4 + b3 / 64) :: b64Char (b3 % 64) :: b64EncodeBytes rest
  | [b1, b2] =>
    [b64Char (b1 / 4), b64Char ((b1 % 4) * 16 + b2 / 16), b64Char ((b2 % 16) * 4), padByte]
  | [b1] => [b64Char (b1 / 4), b64Char ((b1 % 4) * 16), padByte, padByte]
  | [] => []

/-- Embeds `filepath.Ext` at the byte level: the suffix of `u` from its last `.`
(byte 46), empty if a `/` (byte 47) intervenes or there is no dot. -/
def extBytesAux : List Nat → List Nat → List Nat
  | [], _ => []
  | b :: rest, acc =>
    if b = 47 then []
    else if b = 46 then b :: acc
    else extBytesAux rest (b :: acc)

/-- Embeds `filepath.Ext(imageURL)` as bytes. -/
def extBytes (u : List Nat) : List Nat := extBytesAux u.reverse []

/-- Embeds `base64Filename(imageURL)`: the base64 encoding of the URL bytes
followed by the URL's original extension. -/
def base64Filename (u : List Nat) : List Nat := b64EncodeBytes u ++ extBytes u

/-- Index of a byte in the base64 alphabet (the inverse used to decode). -/
def b64Index (c : Nat) : Nat := b64Alphabet.indexOf c

/-- Base64 decoder for the encoder's output shape. -/
def b64DecodeBytes : List Nat → List Nat
  | c1 :: c2 :: c3 :: c4 :: rest =>
    let s1 := b64Index c1
    let s2 := b64Index c2
    let s3 := b64Index c3
    let s4 := b64Index c4
    if c3 = padByte then [s1 * 4 + s2 / 16]
    else if c4 = padByte then [s1 * 4 + s2 / 16, (s2 % 16) * 16 + s3 / 4]
    else (s1 * 4 + s2 / 16) :: ((s2 % 16) * 16 + s3 / 4) :: ((s3 % 4) * 64 + s4) ::
      b64DecodeBytes rest
  | _ => []

/-- Recover the URL bytes from a `base64Filename` output: the extension
starts at the first `.` (base64 output never contains one), so decoding
the part before it inverts the encoding. -/
def recoverURL (name : List Nat) : List Nat :=
  b64DecodeBytes (name.takeWhile (fun b => b ≠ 46))

/-! ## Directory destination on a filesystem model (for `dirDst.create`)

A filesystem is an association list of file path/contents pairs plus a
set of directories.  `dirDst.create` joins the destination root with the
relative name, creates the parent directories, and opens the target with
`os.O_WRONLY|os.O_CREATE|os.O_TRUNC` (mode 0644): an existing file is
truncated to empty, a missing one is created.  `io.Copy` then appends the
source bytes to the (just truncated) file. -/

/-- Lookup in the file map. -/
def lookupF : List (String × String) → String → Option String
  | [], _ => none
  | (p, c) :: rest, q => if p = q then some c else lookupF rest q

/-- Point update of the file map (insert at the end when absent). -/
def setFile : List (String × String) → String → String → List (String × String)
  | [], p, c => [(p, c)]
  | (q, d) :: rest, p, c =>
    if q = p then (q, c) :: rest else (q, d) :: setFile rest p c

/-- Filesystem state: files (path to contents) and existing directories. -/
structure DirFS where
  files : List (String × String)
  dirs : List String
deriving DecidableEq, Repr

/-- Embeds `os.MkdirAll`: ensures the directory exists; touches no file. -/
def mkdirAllFS (fs : DirFS) (d : String) : DirFS :=
  { fs with dirs := if fs.dirs.contains d then fs.dirs else fs.dirs ++ [d] }

/-- Embeds `filepath.Join` for a clean root and relative name. -/
def joinPath (a b : String) : String := a ++ "/" ++ b

/-- Embeds `dirDst.create(file)`: `file = filepath.Join(d, file)`;
`os.MkdirAll(filepath.Dir(file))`; open with `O_CREATE|O_TRUNC`
(truncating any existing contents).  Returns the new state and the opened
path. -/
def dirDstCreate (root : String) (fs : DirFS) (file : String) : DirFS × String :=
  let path := joinPath root file
  let fs1 := mkdirAllFS fs (filepathDirGo path)
  ({ fs1 with files := setFile fs1.files path "" }, path)

/-- Embeds `copyFileToDst` against a directory destination: `dst.create` then
`io.Copy` of the cached bytes into the returned handle. -/
def copyFileToDstDirFS (root : String) (fs : DirFS) (file content : String) : DirFS :=
  let cr := dirDstCreate root fs file
  { cr.1 with
    files := setFile cr.1.files cr.2 (((lookupF cr.1.files cr.2).getD "") ++ content) }

/-! ## Lemmas about deduplication and filtering -/

/-- First-occurrence deduplication in its standard recursive form, used to
characterise the accumulator-based loop `dedupAux`. -/
def dedupSpec : List String → List String
  | [] => []
  | a :: l => a :: dedupSpec (l.filter (fun x => x ≠ a))
termination_by l => l.length
decreasing_by
  simp_wf
  exact Nat.lt_succ_of_le (List.length_filter_le _ _)

theorem dedupAux_eq (l : List String) :
    ∀ (c b : List String),
      dedupAux c b l = b ++ dedupSpec (l.filter (fun x => !c.contains x)) := by
  induction l with
  | nil => intro c b; simp [dedupAux, dedupSpec.eq_1]
  | cons s rest ih =>
    intro c b
    by_cases hc : c.contains s
    · have hm : s ∈ c := by simpa using hc
      rw [show dedupAux c b (s :: rest) = dedupAux c b rest from by simp [dedupAux, hm]]
      rw [ih]
      rw [show (s :: rest).filter (fun x => !c.contains x) =
            rest.filter (fun x => !c.contains x) from by simp [List.filter_cons, hm]]
    · have hm : s ∉ c := by simpa using hc
      rw [show dedupAux c b (s :: rest) = dedupAux (s :: c) (b ++ [s]) rest from by
        simp [dedupAux, hm]]
      rw [ih]
      rw [show (s :: rest).filter (fun x => !c.contains x) =
            s :: rest.filter (fun x => !c.contains x) from by simp [List.filter_cons, hm]]
      rw [dedupSpec.eq_2]
      have hfilter :
          (rest.filter (fun x => !c.contains x)).filter (fun x => decide (x ≠ s)) =
            rest.filter (fun x => !(s :: c).contains x) := by
        rw [List.filter_filter]
        apply List.filter_congr
        intro x _
        by_cases hxs : x = s
        · subst hxs; simp
        · simp [hxs, List.mem_cons]
      rw [hfilter, List.append_assoc]
      rfl

theorem dedup_go_eq_spec (l : List String) :
    dedupAux [] [] l = dedupSpec l := by
  rw [dedupAux_eq]
  simp

theorem dedupSpec_subset {x : String} (l : List String) (h : x ∈ dedupSpec l) : x ∈ l := by
  induction l using dedupSpec.induct with
  | case1 => simp [dedupSpec.eq_1] at h
  | case2 a l ih =>
    rw [dedupSpec.eq_2] at h
    rcases List.mem_cons.mp h with h | h
    · exact h ▸ List.mem_cons_self a l
    · exact List.mem_cons_of_mem a (List.mem_of_mem_filter (ih h))

theorem dedupSpec_nodup (l : List String) : (dedupSpec l).Nodup := by
  induction l using dedupSpec.induct with
  | case1 => simp [dedupSpec.eq_1]
  | case2 a l ih =>
    rw [dedupSpec.eq_2]
    refine List.nodup_cons.mpr ⟨fun hmem => ?_, ih⟩
    have := List.of_mem_filter (dedupSpec_subset _ hmem)
    simp at this

theorem dedupSpec_sublist (l : List String) : (dedupSpec l).Sublist l := by
  induction l using dedupSpec.induct with
  | case1 => simp [dedupSpec.eq_1]
  | case2 a l ih =>
    rw [dedupSpec.eq_2]
    exact ((ih.trans (List.filter_sublist l)).cons₂ a)

theorem filterAux_eq_filter (re : String → Bool) :
    ∀ (l : List String), filterAux re l = l.filter re
  | [] => rfl
  | s :: rest => by
    by_cases h : re s <;> simp [filterAux, h, List.filter_cons, filterAux_eq_filter re rest]

theorem extract_eq_filter_dedupSpec (re : Option (String → Bool)) (page : String) :
    extractImageURLs re page =
      match re with
      | some r => (dedupSpec (findAllImages page)).filter r
      | none => dedupSpec (findAllImages page) := by
  cases re with
  | none => simp [extractImageURLs, dedup_go_eq_spec]
  | some r => simp [extractImageURLs, dedup_go_eq_spec, filterAux_eq_filter]

theorem extract_sublist_findAll (re : Option (String → Bool)) (page : String) :
    (extractImageURLs re page).Sublist (findAllImages page) := by
  rw [extract_eq_filter_dedupSpec]
  cases re with
  | none => exact dedupSpec_sublist _
  | some r => exact (List.filter_sublist _).trans (dedupSpec_sublist _)

/-! ## Lemmas about the legacy pattern filter -/

theorem filterOldAux_pattern_skips (pat s : String) :
    (!(filepathMatch pat s).2 || !(filepathMatch pat s).1) = true := by
  unfold filepathMatch
  cases goMatch pat.data s.data <;> simp

theorem filterOldAux_pattern_empty_output (pat : String) (hp : pat ≠ "")
    (re : Option (String → Bool)) :
    ∀ (l : List String), filterOldAux pat re l = [] := by
  intro l
  induction l with
  | nil => rfl
  | cons s rest ih =>
    have hne : (pat != "") = true := by simpa using hp
    simp [filterOldAux, hne, filterOldAux_pattern_skips, ih]

theorem filterOldAux_empty_pattern (re : Option (String → Bool)) :
    ∀ (l : List String),
      filterOldAux "" re l = (match re with | some r => filterAux r l | none => l) := by
  intro l
  induction l with
  | nil => cases re <;> rfl
  | cons s rest ih =>
    cases re with
    | none => simpa [filterOldAux] using ih
    | some r =>
      by_cases hr : r s <;> simp [filterOldAux, filterAux, hr] <;> simpa using ih

theorem goMatch_lbracket_error (s : String) : goMatch "[".data s.data = .error () := by
  rcases h : s.data with _ | ⟨x, xs⟩ <;> rfl

theorem filepathMatch_lbracket (s : String) : filepathMatch "[" s = (false, true) := by
  unfold filepathMatch
  rw [goMatch_lbracket_error]

/-! ## Lemmas about the consumer loop -/

theorem copyFilesToDst_nil (c : Bool) (s : List Bool) (cf : GoFile → Bool) :
    copyFilesToDst c s cf [] = [] := by
  cases c <;> cases s <;> try rfl
  · rename_i b s
    cases b <;> rfl

/-! ## Claim theorems -/

/-- C7: for every page input and configured filter, the extractor's output
has no duplicate URL strings and preserves first-seen order: the output is
a sublist of the regex matches (order preserved), and the deduplication
loop keeps the first occurrence of each URL, discarding later exact
repeats (the recursion `dedup (a :: l) = a :: dedup (l minus later copies
of a)`). -/
theorem extractImageURLs_nodup_first_seen_order :
    ∀ (re : Option (String → Bool)) (page : String),
      (extractImageURLs re page).Nodup ∧
      (extractImageURLs re page).Sublist (findAllImages page) ∧
      (∀ (a : String) (l : List String),
        dedupAux [] [] (a :: l) = a :: dedupAux [] [] (l.filter (fun x => x ≠ a))) := by
  intro re page
  refine ⟨?_, extract_sublist_findAll re page, ?_⟩
  · rw [extract_eq_filter_dedupSpec]
    cases re with
    | none => exact dedupSpec_nodup _
    | some r => exact (List.filter_sublist _).nodup (dedupSpec_nodup _)
  · intro a l
    rw [dedup_go_eq_spec, dedup_go_eq_spec, dedupSpec.eq_2]

/-- C6 counterexample: with the configured shell-pattern filter
`https://a.test/x.png` — a valid pattern that the (single) deduplicated
reference satisfies (`filepath.Match` returns `(true, nil)`) — the legacy
extractor nevertheless returns the empty list, not the references
satisfying every configured predicate: its keep-condition
`err != nil && match` is inverted. -/
theorem glob_filter_drops_matching_reference :
    filepathMatch "https://a.test/x.png" "https://a.test/x.png" = (true, false) ∧
    dedupAux [] [] (findAllImages "https://a.test/x.png") = ["https://a.test/x.png"] ∧
    extractImageURLsOld "https://a.test/x.png" none "https://a.test/x.png" = [] :=
  ⟨rfl, rfl, rfl⟩

/-- C6 (amended): for the current extractor, the output is exactly the
deduplicated reference list filtered by the configured regex (order
preserved), and with no filter configured the full deduplicated list is
returned unchanged; the scenario page with `https://a.test/x.png` twice
and `https://b.test/y.gif` under filter `(jpg|png)$` yields exactly
`https://a.test/x.png`.  In the legacy extractor, any configured
non-empty shell pattern drops every reference (inverted keep-condition),
while an empty pattern leaves the regex-only behaviour. -/
theorem extractImageURLs_filter_semantics :
    (∀ (page : String) (re : String → Bool),
        extractImageURLs (some re) page = (extractImageURLs none page).filter re) ∧
    extractImageURLs (some regexJpgPng)
        "https://a.test/x.png https://a.test/x.png https://b.test/y.gif" =
      ["https://a.test/x.png"] ∧
    (∀ (pat : String) (re : Option (String → Bool)) (page : String),
        pat ≠ "" → extractImageURLsOld pat re page = []) ∧
    (∀ (re : Option (String → Bool)) (page : String),
        extractImageURLsOld "" re page = extractImageURLs re page) := by
  refine ⟨?_, rfl, ?_, ?_⟩
  · intro page re
    rw [extract_eq_filter_dedupSpec, extract_eq_filter_dedupSpec]
  · intro pat re page hp
    exact filterOldAux_pattern_empty_output pat hp re _
  · intro re page
    unfold extractImageURLsOld extractImageURLs
    rw [filterOldAux_empty_pattern]

/-- Witness for the hypothesis-carrying conjunct of
`extractImageURLs_filter_semantics`. -/
theorem extractImageURLs_filter_semantics_witness :
    "x" ≠ "" ∧ extractImageURLsOld "x" none "https://a.test/x.png" = [] :=
  ⟨by decide, extractImageURLs_filter_semantics.2.2.1 "x" none "https://a.test/x.png"
    (by decide)⟩

/-- C5 counterexample: the malformed shell pattern `[` (which
`filepath.Match` rejects with `ErrBadPattern`) is not reported before
extraction begins: the legacy `Main` parses it without error, extraction
runs anyway and completes without surfacing any error — the bad-pattern
error is swallowed inside the filter loop. -/
theorem malformed_pattern_swallowed :
    filepathMatch "[" "https://a.test/x.png" = (false, true) ∧
    MainOld (fun _ => none) "https://a.test" "." "[" "" "https://a.test/x.png" = .ok [] :=
  ⟨rfl, rfl⟩

/-- C5 (amended): a malformed regular expression does fail fast — in both
revisions `parse` returns the compile error to the caller before
extraction can run — but a malformed shell pattern is never validated:
`parse` accepts it, and during extraction every per-candidate
`filepath.Match` error is swallowed (the candidate is skipped), so with
pattern `[` extraction silently returns the empty list. -/
theorem malformed_filter_handling :
    (∀ (compile : String → Option (String → Bool)) (u dst p r page : String),
        u ≠ "" → r ≠ "" → compile r = none →
        MainOld compile u dst p r page = .error "error compiling regex (-r flag)") ∧
    (∀ (compile : String → Option (String → Bool)) (u dst r : String) (y f sil : Bool)
        (page : String),
        u ≠ "" → r ≠ "" → compile r = none →
        MainCur compile u dst r y f sil page = .error "error compiling regex (-r flag)") ∧
    (∀ (s : String), filepathMatch "[" s = (false, true)) ∧
    (∀ (re : Option (String → Bool)) (page : String),
        extractImageURLsOld "[" re page = []) := by
  refine ⟨?_, ?_, filepathMatch_lbracket, ?_⟩
  · intro compile u dst p r page hu hr hc
    simp [MainOld, parseOld, hu, hr, hc]
  · intro compile u dst r y f sil page hu hr hc
    simp [MainCur, parse, hu, hr, hc]
  · intro re page
    exact filterOldAux_pattern_empty_output "[" (by decide) re _

/-- Witness for `malformed_filter_handling`. -/
theorem malformed_filter_handling_witness :
    "u" ≠ "" ∧ "(" ≠ "" ∧ (fun (_ : String) => (none : Option (String → Bool))) "(" = none ∧
    MainOld (fun _ => none) "u" "." "" "(" "" = .error "error compiling regex (-r flag)" :=
  ⟨by decide, by decide, rfl,
    malformed_filter_handling.1 (fun _ => none) "u" "." "" "(" "" (by decide) (by decide) rfl⟩

/-- C4: a cancellation/timeout error from a single fetch is run-ending —
after it the producer attempts no further references (the attempted list
stops right after the cancelled fetch) — whereas any other per-resource
fetch error only skips that resource and iteration continues with the
rest. -/
theorem downloadImages_cancel_stops_iteration :
    (∀ (fetch : String → FetchOutcome) (pre post : List String) (u : String),
        fetch u = .cancelErr → (∀ v ∈ pre, fetch v ≠ .cancelErr) →
        (downloadImages fetch (pre ++ u :: post)).1 = pre ++ [u]) ∧
    (∀ (fetch : String → FetchOutcome) (u : String) (rest : List String),
        fetch u = .err →
        downloadImages fetch (u :: rest) =
          ((u :: (downloadImages fetch rest).1), (downloadImages fetch rest).2)) := by
  constructor
  · intro fetch pre post u hu hpre
    induction pre with
    | nil => simp [downloadImages, hu]
    | cons v pre ih =>
      have hv := hpre v (List.mem_cons_self v pre)
      have ih2 := ih (fun w hw => hpre w (List.mem_cons_of_mem v hw))
      cases hfv : fetch v with
      | ok p => simp [downloadImages, hfv, ih2]
      | err => simp [downloadImages, hfv, ih2]
      | cancelErr => exact absurd hfv hv
  · intro fetch u rest hu
    simp [downloadImages, hu]

/-- Witness for `downloadImages_cancel_stops_iteration`. -/
theorem downloadImages_cancel_stops_iteration_witness :
    ((fun u => if u = "u2" then FetchOutcome.cancelErr else .ok "/t") "u2" = .cancelErr) ∧
    (∀ v ∈ ["u1"],
      (fun u => if u = "u2" then FetchOutcome.cancelErr else .ok "/t") v ≠ .cancelErr) ∧
    (downloadImages (fun u => if u = "u2" then FetchOutcome.cancelErr else .ok "/t")
        (["u1"] ++ "u2" :: ["u3"])).1 = ["u1"] ++ ["u2"] :=
  ⟨rfl, by decide,
    downloadImages_cancel_stops_iteration.1 _ ["u1"] ["u3"] "u2" rfl (by decide)⟩

/-- C1 counterexample: the cancellation signal is set, one fully
downloaded file sits in the hand-off queue, and the consumer's `select`
resolves to the ready `ctx.Done()` case: `copyFilesToDst` returns at once
and the queued file's sink write is never performed. -/
theorem copyFilesToDst_drops_queued_on_cancel :
    copyFilesToDst true [true] (fun _ => false)
        [⟨"/tmp/imaget/aHR0cHM=.png", "https://a.test/x.png"⟩] = [] ∧
    (⟨"/tmp/imaget/aHR0cHM=.png", "https://a.test/x.png"⟩ : GoFile) ∉
      copyFilesToDst true [true] (fun _ => false)
        [⟨"/tmp/imaget/aHR0cHM=.png", "https://a.test/x.png"⟩] :=
  ⟨rfl, by decide⟩

/-- C1 (amended): without cancellation the consumer drains and writes
every queued file (minus per-file copy errors, which are reported and
skipped); the written files are always a sublist of the queue; but once
the cancellation signal fires, the consumer writes only some prefix of
the queue — whichever `select` resolutions occur — and may drop the rest,
returning as soon as a resolution takes the `ctx.Done()` case. -/
theorem copyFilesToDst_drain_behavior :
    (∀ (sched : List Bool) (cf : GoFile → Bool) (q : List GoFile),
        copyFilesToDst false sched cf q = q.filter (fun f => !cf f)) ∧
    (∀ (cancelled : Bool) (sched : List Bool) (cf : GoFile → Bool) (q : List GoFile),
        (copyFilesToDst cancelled sched cf q).Sublist q) ∧
    (∀ (sched : List Bool) (q : List GoFile), ∃ n,
        copyFilesToDst true sched (fun _ => false) q = q.take n) := by
  refine ⟨?_, ?_, ?_⟩
  · intro sched cf q
    induction q with
    | nil => simp [copyFilesToDst_nil]
    | cons f rest ih =>
      by_cases hcf : cf f <;> simp [copyFilesToDst, List.filter_cons, hcf, ih]
  · intro cancelled sched cf q
    induction q generalizing sched with
    | nil => simp [copyFilesToDst_nil]
    | cons f rest ih =>
      cases cancelled with
      | false =>
        by_cases hcf : cf f
        · simpa [copyFilesToDst, hcf] using (ih sched).cons f
        · simpa [copyFilesToDst, hcf] using (ih sched).cons₂ f
      | true =>
        cases sched with
        | nil =>
          by_cases hcf : cf f
          · simpa [copyFilesToDst, hcf] using (ih []).cons f
          · simpa [copyFilesToDst, hcf] using (ih []).cons₂ f
        | cons b sched =>
          cases b with
          | true => simp [copyFilesToDst]
          | false =>
            by_cases hcf : cf f
            · simpa [copyFilesToDst, hcf] using (ih sched).cons f
            · simpa [copyFilesToDst, hcf] using (ih sched).cons₂ f
  · intro sched q
    induction q generalizing sched with
    | nil => exact ⟨0, by simp [copyFilesToDst_nil]⟩
    | cons f rest ih =>
      cases sched with
      | nil =>
        obtain ⟨n, hn⟩ := ih []
        exact ⟨n + 1, by simp [copyFilesToDst, hn]⟩
      | cons b sched =>
        cases b with
        | true => exact ⟨0, rfl⟩
        | false =>
          obtain ⟨n, hn⟩ := ih sched
          exact ⟨n + 1, by simp [copyFilesToDst, hn]⟩

theorem newDst_cases (dstS : String) :
    (filepathExtGo dstS = "" ∧ newDst dstS = .ok (.dir dstS, [])) ∨
    (filepathExtGo dstS = ".zip" ∧ newDst dstS = .ok (.zip dstS,
      [.mkdirAll (filepathDirGo dstS), .createFile dstS])) ∨
    (filepathExtGo dstS ≠ "" ∧ filepathExtGo dstS ≠ ".zip" ∧
      newDst dstS = .error "unsupported destination") := by
  unfold newDst
  split
  · rename_i hext
    exact Or.inl ⟨hext, rfl⟩
  · rename_i hext
    exact Or.inr (Or.inl ⟨hext, rfl⟩)
  · rename_i h1 h2
    exact Or.inr (Or.inr ⟨h1, h2, rfl⟩)

/-! ## Lemmas about `base64Filename` -/

theorem b64Alphabet_length : b64Alphabet.length = 64 := by decide

theorem b64Index_b64Char : ∀ i < 64, b64Index (b64Char i) = i := by decide

theorem b64Char_ne (x : Nat) : b64Char x ≠ 46 ∧ b64Char x ≠ 61 := by
  by_cases hx : x < 64
  · exact (by decide : ∀ x < 64, b64Char x ≠ 46 ∧ b64Char x ≠ 61) x hx
  · have hlen : b64Alphabet.length ≤ x := by rw [b64Alphabet_length]; omega
    unfold b64Char
    rw [List.getD_eq_default _ _ hlen]
    exact ⟨by decide, by decide⟩

theorem b64_roundtrip : ∀ (l : List Nat), (∀ b ∈ l, b < 256) →
    b64DecodeBytes (b64EncodeBytes l) = l := by
  intro l
  induction l using b64EncodeBytes.induct with
  | case1 b1 b2 b3 rest ih =>
    intro hb
    have h1 : b1 < 256 := hb b1 (by simp)
    have h2 : b2 < 256 := hb b2 (by simp)
    have h3 : b3 < 256 := hb b3 (by simp)
    have s1lt : b1 / 4 < 64 := by omega
    have s2lt : (b1 % 4) * 16 + b2 / 16 < 64 := by omega
    have s3lt : (b2 % 16) * 4 + b3 / 64 < 64 := by omega
    have s4lt : b3 % 64 < 64 := by omega
    rw [show b64EncodeBytes (b1 :: b2 :: b3 :: rest) =
          b64Char (b1 / 4) :: b64Char ((b1 % 4) * 16 + b2 / 16) ::
          b64Char ((b2 % 16) * 4 + b3 / 64) :: b64Char (b3 % 64) ::
          b64EncodeBytes rest from rfl]
    rw [show ∀ (c1 c2 c3 c4 : Nat) (tail : List Nat),
          b64DecodeBytes (c1 :: c2 :: c3 :: c4 :: tail) =
            (if c3 = padByte then [b64Index c1 * 4 + b64Index c2 / 16]
             else if c4 = padByte then
               [b64Index c1 * 4 + b64Index c2 / 16,
                b64Index c2 % 16 * 16 + b64Index c3 / 4]
             else (b64Index c1 * 4 + b64Index c2 / 16) ::
               (b64Index c2 % 16 * 16 + b64Index c3 / 4) ::
               (b64Index c3 % 4 * 64 + b64Index c4) :: b64DecodeBytes tail)
          from fun c1 c2 c3 c4 tail => rfl]
    rw [if_neg (by simpa [padByte] using (b64Char_ne ((b2 % 16) * 4 + b3 / 64)).2)]
    rw [if_neg (by simpa [padByte] using (b64Char_ne (b3 % 64)).2)]
    rw [b64Index_b64Char _ s1lt, b64Index_b64Char _ s2lt, b64Index_b64Char _ s3lt,
      b64Index_b64Char _ s4lt]
    rw [ih (fun b hbm => hb b (by simp [hbm]))]
    congr 1
    · omega
    congr 1
    · omega
    congr 1
    omega
  | case2 b1 b2 =>
    intro hb
    have h1 : b1 < 256 := hb b1 (by simp)
    have h2 : b2 < 256 := hb b2 (by simp)
    have s1lt : b1 / 4 < 64 := by omega
    have s2lt : (b1 % 4) * 16 + b2 / 16 < 64 := by omega
    have s3lt : (b2 % 16) * 4 < 64 := by omega
    rw [show b64EncodeBytes [b1, b2] =
          [b64Char (b1 / 4), b64Char ((b1 % 4) * 16 + b2 / 16),
           b64Char ((b2 % 16) * 4), padByte] from rfl]
    rw [show ∀ (c1 c2 c3 c4 : Nat),
          b64DecodeBytes [c1, c2, c3, c4] =
            (if c3 = padByte then [b64Index c1 * 4 + b64Index c2 / 16]
             else if c4 = padByte then
               [b64Index c1 * 4 + b64Index c2 / 16,
                b64Index c2 % 16 * 16 + b64Index c3 / 4]
             else (b64Index c1 * 4 + b64Index c2 / 16) ::
               (b64Index c2 % 16 * 16 + b64Index c3 / 4) ::
               (b64Index c3 % 4 * 64 + b64Index c4) :: b64DecodeBytes [])
          from fun c1 c2 c3 c4 => rfl]
    rw [if_neg (by simpa [padByte] using (b64Char_ne ((b2 % 16) * 4)).2)]
    rw [if_pos rfl]
    rw [b64Index_b64Char _ s1lt, b64Index_b64Char _ s2lt, b64Index_b64Char _ s3lt]
    congr 1
    · omega
    congr 1
    omega
  | case3 b1 =>
    intro hb
    have h1 : b1 < 256 := hb b1 (by simp)
    have s1lt : b1 / 4 < 64 := by omega
    have s2lt : (b1 % 4) * 16 < 64 := by omega
    rw [show b64EncodeBytes [b1] =
          [b64Char (b1 / 4), b64Char ((b1 % 4) * 16), padByte, padByte] from rfl]
    rw [show ∀ (c1 c2 : Nat),
          b64DecodeBytes [c1, c2, padByte, padByte] =
            [b64Index c1 * 4 + b64Index c2 / 16]
          from fun c1 c2 => by rw [show b64DecodeBytes [c1, c2, padByte, padByte] =
            (if padByte = padByte then [b64Index c1 * 4 + b64Index c2 / 16]
             else if padByte = padByte then
               [b64Index c1 * 4 + b64Index c2 / 16,
                b64Index c2 % 16 * 16 + b64Index padByte / 4]
             else (b64Index c1 * 4 + b64Index c2 / 16) ::
               (b64Index c2 % 16 * 16 + b64Index padByte / 4) ::
               (b64Index padByte % 4 * 64 + b64Index padByte) :: b64DecodeBytes [])
            from rfl, if_pos rfl]]
    rw [b64Index_b64Char _ s1lt, b64Index_b64Char _ s2lt]
    congr 1
    omega
  | case4 => intro _; rfl

theorem b64EncodeBytes_ne_dot : ∀ (l : List Nat), ∀ b ∈ b64EncodeBytes l, b ≠ 46 := by
  intro l
  induction l using b64EncodeBytes.induct with
  | case1 b1 b2 b3 rest ih =>
    intro b hb
    rw [show b64EncodeBytes (b1 :: b2 :: b3 :: rest) =
          b64Char (b1 / 4) :: b64Char ((b1 % 4) * 16 + b2 / 16) ::
          b64Char ((b2 % 16) * 4 + b3 / 64) :: b64Char (b3 % 64) ::
          b64EncodeBytes rest from rfl] at hb
    simp only [List.mem_cons] at hb
    rcases hb with rfl | rfl | rfl | rfl | hb
    · exact (b64Char_ne _).1
    · exact (b64Char_ne _).1
    · exact (b64Char_ne _).1
    · exact (b64Char_ne _).1
    · exact ih b hb
  | case2 b1 b2 =>
    intro b hb
    simp only [b64EncodeBytes, List.mem_cons, List.not_mem_nil, or_false] at hb
    rcases hb with rfl | rfl | rfl | rfl
    · exact (b64Char_ne _).1
    · exact (b64Char_ne _).1
    · exact (b64Char_ne _).1
    · decide
  | case3 b1 =>
    intro b hb
    simp only [b64EncodeBytes, List.mem_cons, List.not_mem_nil, or_false] at hb
    rcases hb with rfl | rfl | rfl | rfl
    · exact (b64Char_ne _).1
    · exact (b64Char_ne _).1
    · decide
    · decide
  | case4 => intro b hb; cases hb

theorem extBytesAux_shape : ∀ (v acc : List Nat),
    extBytesAux v acc = [] ∨ ∃ t, extBytesAux v acc = 46 :: t := by
  intro v
  induction v with
  | nil => intro acc; exact Or.inl rfl
  | cons b rest ih =>
    intro acc
    by_cases h47 : b = 47
    · exact Or.inl (by simp [extBytesAux, h47])
    · by_cases h46 : b = 46
      · exact Or.inr ⟨acc, by simp [extBytesAux, h47, h46]⟩
      · have := ih (b :: acc)
        simpa [extBytesAux, h47, h46] using this

theorem takeWhile_ne_dot_append (enc ext2 : List Nat) (henc : ∀ b ∈ enc, b ≠ 46)
    (hext : ext2 = [] ∨ ∃ t, ext2 = 46 :: t) :
    (enc ++ ext2).takeWhile (fun b => b ≠ 46) = enc := by
  induction enc with
  | nil =>
    rcases hext with h | ⟨t, h⟩ <;> subst h <;> simp [List.takeWhile]
  | cons e enc ih =>
    have he : e ≠ 46 := henc e (by simp)
    rw [List.cons_append, List.takeWhile_cons, if_pos (by simpa using he)]
    rw [ih (fun b hbm => henc b (by simp [hbm]))]

theorem extBytes_shape (u : List Nat) : extBytes u = [] ∨ ∃ t, extBytes u = 46 :: t :=
  extBytesAux_shape u.reverse []

theorem recoverURL_roundtrip (u : List Nat) (hu : ∀ b ∈ u, b < 256) :
    recoverURL (base64Filename u) = u := by
  unfold recoverURL base64Filename
  rw [takeWhile_ne_dot_append _ _ (b64EncodeBytes_ne_dot u) (extBytes_shape u)]
  exact b64_roundtrip u hu

/-- C8: the per-URL file-name encoding `base64Filename` (cache path and
flat destination name) is deterministic and collision-resistant: the URL
bytes are recoverable from the name (the encoding is reversible — the
part before the first `.` decodes back to the URL), hence two URLs map to
the same name exactly when they are the same URL. -/
theorem base64Filename_deterministic_injective :
    ∀ (u v : List Nat), (∀ b ∈ u, b < 256) → (∀ b ∈ v, b < 256) →
      recoverURL (base64Filename u) = u ∧
      (base64Filename u = base64Filename v ↔ u = v) := by
  intro u v hu hv
  refine ⟨recoverURL_roundtrip u hu, ?_, fun h => h ▸ rfl⟩
  intro heq
  have hrec := congrArg recoverURL heq
  rwa [recoverURL_roundtrip u hu, recoverURL_roundtrip v hv] at hrec

/-- Witness for `base64Filename_deterministic_injective`. -/
theorem base64Filename_deterministic_injective_witness :
    (∀ b ∈ "https://a.test/x.png".data.map Char.toNat, b < 256) ∧
    (∀ b ∈ "https://b.test/y.gif".data.map Char.toNat, b < 256) ∧
    (recoverURL (base64Filename ("https://a.test/x.png".data.map Char.toNat)) =
       "https://a.test/x.png".data.map Char.toNat ∧
     (base64Filename ("https://a.test/x.png".data.map Char.toNat) =
        base64Filename ("https://b.test/y.gif".data.map Char.toNat) ↔
      "https://a.test/x.png".data.map Char.toNat =
        "https://b.test/y.gif".data.map Char.toNat)) :=
  ⟨by decide, by decide,
    base64Filename_deterministic_injective _ _ (by decide) (by decide)⟩

/-! ## Lemmas about the directory destination -/

theorem lookupF_setFile_self (fs : List (String × String)) (p c : String) :
    lookupF (setFile fs p c) p = some c := by
  induction fs with
  | nil => simp [setFile, lookupF]
  | cons qd rest ih =>
    obtain ⟨q, d⟩ := qd
    by_cases hq : q = p
    · simp [setFile, hq, lookupF]
    · simp [setFile, hq, lookupF, ih]

theorem lookupF_setFile_other (fs : List (String × String)) (p c p' : String)
    (hne : p' ≠ p) : lookupF (setFile fs p c) p' = lookupF fs p' := by
  induction fs with
  | nil => simp [setFile, lookupF, Ne.symm hne]
  | cons qd rest ih =>
    obtain ⟨q, d⟩ := qd
    by_cases hq : q = p
    · subst hq
      simp [setFile, lookupF, Ne.symm hne]
    · by_cases hq' : q = p'
      · subst hq'
        simp [setFile, lookupF, hq]
      · simp [setFile, hq, lookupF, hq', ih]

/-- C10: `dirDst.create` opens the joined target path with truncation:
after `copyFileToDst` the file at `root/rel` holds exactly the copied
bytes — any previous contents are discarded, not appended to — the
operation succeeds on an existing file, and every other file of the
filesystem is left untouched (directory creation touches no file). -/
theorem dirDst_create_truncates_and_frames :
    ∀ (root rel content : String) (fs : DirFS) (p : String),
      lookupF (copyFileToDstDirFS root fs rel content).files (joinPath root rel) =
        some content ∧
      (p ≠ joinPath root rel →
        lookupF (copyFileToDstDirFS root fs rel content).files p = lookupF fs.files p) := by
  intro root rel content fs p
  constructor
  · show lookupF (setFile (setFile fs.files (joinPath root rel) "") (joinPath root rel)
      (((lookupF (setFile fs.files (joinPath root rel) "") (joinPath root rel)).getD "")
        ++ content)) (joinPath root rel) = some content
    rw [lookupF_setFile_self, lookupF_setFile_self]
    simp [Option.getD]
  · intro hne
    show lookupF (setFile (setFile fs.files (joinPath root rel) "") (joinPath root rel) _) p
      = lookupF fs.files p
    rw [lookupF_setFile_other _ _ _ _ hne, lookupF_setFile_other _ _ _ _ hne]

/-- Witness for `dirDst_create_truncates_and_frames`: a destination tree
holding an old version of the target file and one unrelated file; the
copy replaces the former entirely and leaves the latter unchanged. -/
theorem dirDst_create_truncates_and_frames_witness :
    "/imgs/other.png" ≠ joinPath "/imgs" "a.test/x.png" ∧
    (lookupF (copyFileToDstDirFS "/imgs"
        ⟨[("/imgs/a.test/x.png", "OLD"), ("/imgs/other.png", "KEEP")], []⟩
        "a.test/x.png" "NEW").files (joinPath "/imgs" "a.test/x.png") = some "NEW" ∧
     ("/imgs/other.png" ≠ joinPath "/imgs" "a.test/x.png" →
       lookupF (copyFileToDstDirFS "/imgs"
          ⟨[("/imgs/a.test/x.png", "OLD"), ("/imgs/other.png", "KEEP")], []⟩
          "a.test/x.png" "NEW").files "/imgs/other.png" =
        lookupF [("/imgs/a.test/x.png", "OLD"), ("/imgs/other.png", "KEEP")]
          "/imgs/other.png")) :=
  ⟨by decide, dirDst_create_truncates_and_frames "/imgs" "a.test/x.png" "NEW"
    ⟨[("/imgs/a.test/x.png", "OLD"), ("/imgs/other.png", "KEEP")], []⟩ "/imgs/other.png"⟩

/-- C2 counterexample: on a run that finds one reference whose fetch fails
with a plain network error, no file is written, yet the deferred summary
prints `Saved 1` — the `Saved` count is `len(imageURLs)`, the found
count, not the number of files actually written. -/
theorem summary_saved_mismatch :
    (startRun "/imgs" "https://a.test/x.png" none (fun _ => .err) false [] (fun _ => false)
        false).map (fun r => (r.summarySaved, r.written.length)) = .ok (1, 0) ∧
    (1 : Nat) ≠ 0 :=
  ⟨rfl, by decide⟩

/-- C2 (amended): the final summary always reports the number of
resources found — `len(imageURLs)` appears both in the `Found` line and as
the `Saved` count — so the reported `saved` number equals the found count
(together with the elapsed wall time), not the number of files actually
written. -/
theorem summary_saved_equals_found :
    ∀ (dstS page : String) (re : Option (String → Bool)) (fetch : String → FetchOutcome)
      (cancelled : Bool) (sched : List Bool) (cf : GoFile → Bool) (flat : Bool)
      (r : RunResult),
      startRun dstS page re fetch cancelled sched cf flat = .ok r →
      r.summarySaved = (extractImageURLs re page).length ∧
      r.found = extractImageURLs re page := by
  intro dstS page re fetch cancelled sched cf flat r h
  unfold startRun at h
  cases hnd : newDst dstS with
  | error e => rw [hnd] at h; cases h
  | ok pr =>
    obtain ⟨dk, eff0⟩ := pr
    rw [hnd] at h
    cases h
    exact ⟨rfl, rfl⟩

/-- Witness for `summary_saved_equals_found`. -/
theorem summary_saved_equals_found_witness :
    ∃ r, startRun "/imgs" "https://a.test/x.png" none (fun _ => .ok "/t/f") false []
        (fun _ => false) false = .ok r ∧
      (r.summarySaved = (extractImageURLs none "https://a.test/x.png").length ∧
       r.found = extractImageURLs none "https://a.test/x.png") := by
  refine ⟨_, rfl, summary_saved_equals_found "/imgs" "https://a.test/x.png" none
    (fun _ => .ok "/t/f") false [] (fun _ => false) false _ rfl⟩

/-- C3 counterexample: a run against the directory destination `/imgs`
with zero matching references performs no filesystem action other than
the (no-op) `Close`: in particular the destination directory is never
created on disk, contrary to the claim's `directory created if absent`
(`dirDst` only creates directories inside per-file `create` calls, which
never happen here). -/
theorem zeroRefs_dir_destination_not_created :
    (startRun "/imgs" "" none (fun _ => .err) false [] (fun _ => false) false).map
        (fun r => r.effects) = .ok [.closeDst] ∧
    (RunEffect.mkdirAll "/imgs") ∉ ([RunEffect.closeDst] : List RunEffect) ∧
    (RunEffect.createFile "/imgs") ∉ ([RunEffect.closeDst] : List RunEffect) :=
  ⟨rfl, by decide, by decide⟩

/-- C3 (amended): with zero matching references the pipeline completes
immediately and writes no files, and the destination is closed exactly
once; an archive (`.zip`) destination is still created on disk at
construction (parent directories plus the archive file), but a directory
destination is not — no directory is created when no file is written. -/
theorem zeroRefs_run_behavior :
    ∀ (dstS page : String) (re : Option (String → Bool)) (fetch : String → FetchOutcome)
      (cancelled : Bool) (sched : List Bool) (cf : GoFile → Bool) (flat : Bool)
      (r : RunResult),
      startRun dstS page re fetch cancelled sched cf flat = .ok r →
      extractImageURLs re page = [] →
      r.written = [] ∧ r.effects.count .closeDst = 1 ∧
      (filepathExtGo dstS = ".zip" →
        r.effects = [.mkdirAll (filepathDirGo dstS), .createFile dstS, .closeDst]) ∧
      (filepathExtGo dstS = "" → r.effects = [.closeDst]) := by
  intro dstS page re fetch cancelled sched cf flat r h hzero
  unfold startRun at h
  rcases newDst_cases dstS with ⟨hext, hnd⟩ | ⟨hext, hnd⟩ | ⟨h1, h2, hnd⟩ <;> rw [hnd] at h
  · cases h
    refine ⟨?_, ?_, ?_, ?_⟩
    · simp [hzero, downloadImages, copyFilesToDst_nil]
    · simp [hzero, downloadImages, copyFilesToDst_nil]
    · intro hzip
      exact absurd (hext ▸ hzip) (by decide)
    · intro _
      simp [hzero, downloadImages, copyFilesToDst_nil]
  · cases h
    refine ⟨?_, ?_, ?_, ?_⟩
    · simp [hzero, downloadImages, copyFilesToDst_nil]
    · simp [hzero, downloadImages, copyFilesToDst_nil, List.count_cons]
    · intro _
      simp [hzero, downloadImages, copyFilesToDst_nil]
    · intro hdir
      exact absurd (hext ▸ hdir) (by decide)
  · cases h

theorem take_of_prefix_le {α : Type} (run t2 t : List α) (k : Nat)
    (hpre : run ++ t2 = t) (hk : k ≤ run.length) : t.take k = run.take k := by
  subst hpre
  rw [List.take_append_eq_append_take, Nat.sub_eq_zero_of_le hk, List.take_zero,
    List.append_nil]

theorem findAllAux_shape (fuel : Nat) :
    ∀ (cs : List Char) (m : String), m ∈ findAllAux fuel cs →
      ∃ body, (m.data = "http:".data ++ body ∨ m.data = "https:".data ++ body) ∧
        ∀ c ∈ body, isClassChar c = true := by
  induction fuel with
  | zero => intro cs m h; simp [findAllAux] at h
  | succ fuel ih =>
    intro cs m h
    rcases cs with _ | ⟨c0, rest⟩
    · simp [findAllAux] at h
    · rw [findAllAux] at h
      split at h
      · exact ih rest m h
      · rename_i len hsl
        split at h
        · exact ih rest m h
        · rename_i k hle
          rcases List.mem_cons.mp h with hm | hm
          · subst hm
            have hk : k ≤ (((c0 :: rest).drop len).takeWhile isClassChar).length := by
              have hmem := List.mem_of_find?_eq_some hle
              rw [List.mem_reverse, List.mem_range] at hmem
              omega
            obtain ⟨t2, ht2⟩ := List.takeWhile_prefix (l := (c0 :: rest).drop len)
              (p := isClassChar)
            have hbodyclass : ∀ c ∈ ((c0 :: rest).drop len).take k, isClassChar c = true := by
              intro c hc
              rw [take_of_prefix_le _ t2 _ k ht2 hk] at hc
              exact List.mem_takeWhile_imp (List.mem_of_mem_take hc)
            unfold schemeLen at hsl
            split at hsl
            · rename_i hpre
              obtain ⟨t, ht⟩ := List.isPrefixOf_iff_prefix.mp hpre
              obtain rfl : (6 : Nat) = len := Option.some.inj hsl
              refine ⟨((c0 :: rest).drop 6).take k, Or.inr ?_, hbodyclass⟩
              show (c0 :: rest).take (6 + k) = _
              conv_lhs => rw [← ht]
              rw [show (6 : Nat) = "https:".data.length from rfl, List.take_append]
              congr 1
              rw [← ht, List.drop_left]
            · split at hsl
              · rename_i hpre
                obtain ⟨t, ht⟩ := List.isPrefixOf_iff_prefix.mp hpre
                obtain rfl : (5 : Nat) = len := by exact Option.some.inj hsl
                refine ⟨((c0 :: rest).drop 5).take k, Or.inl ?_, hbodyclass⟩
                show (c0 :: rest).take (5 + k) = _
                conv_lhs => rw [← ht]
                rw [show (5 : Nat) = "http:".data.length from rfl, List.take_append]
                congr 1
                rw [← ht, List.drop_left]
              · cases hsl
          · exact ih _ m hm

theorem isClassChar_colon_false : isClassChar ':' = false := by decide

theorem no_https_prefix_of_class (t : List Char) (hclass : ∀ c ∈ t, isClassChar c = true) :
    ("https://".data.isPrefixOf t) = false := by
  cases hq : "https://".data.isPrefixOf t with
  | false => rfl
  | true =>
    exfalso
    obtain ⟨t3, ht3⟩ := List.isPrefixOf_iff_prefix.mp hq
    have hcolon : (':' : Char) ∈ t := by
      rw [← ht3]
      exact List.mem_append_left _ (by decide)
    exact absurd (hclass ':' hcolon) (by simp [isClassChar_colon_false])

theorem no_http_prefix_of_class (t : List Char) (hclass : ∀ c ∈ t, isClassChar c = true) :
    ("http://".data.isPrefixOf t) = false := by
  cases hq : "http://".data.isPrefixOf t with
  | false => rfl
  | true =>
    exfalso
    obtain ⟨t3, ht3⟩ := List.isPrefixOf_iff_prefix.mp hq
    have hcolon : (':' : Char) ∈ t := by
      rw [← ht3]
      exact List.mem_append_left _ (by decide)
    exact absurd (hclass ':' hcolon) (by simp [isClassChar_colon_false])

theorem dstFileHier_strips_scheme (url : String)
    (hbody : ∃ body, (url.data = "http:".data ++ body ∨ url.data = "https:".data ++ body) ∧
      ∀ c ∈ body, isClassChar c = true) :
    dstFileHier url = String.mk (stripSchemeSpec url.data) := by
  obtain ⟨body, hcase, hclass⟩ := hbody
  unfold dstFileHier stripSchemeSpec
  rcases hcase with hurl | hurl <;> rw [hurl]
  · -- url = "http:" ++ body
    cases hpp : ("//".data.isPrefixOf body) with
    | true =>
      obtain ⟨t, ht⟩ := List.isPrefixOf_iff_prefix.mp hpp
      have htclass : ∀ c ∈ t, isClassChar c = true := by
        intro c hc
        exact hclass c (by rw [← ht]; exact List.mem_append_right _ hc)
      rw [← ht]
      have hre : "http:".data ++ ("//".data ++ t) = "http://".data ++ t := rfl
      rw [hre]
      have hfull : ("http://".data.isPrefixOf ("http://".data ++ t)) = true :=
        List.isPrefixOf_iff_prefix.mpr ⟨t, rfl⟩
      have hneg : ("https://".data.isPrefixOf ("http://".data ++ t)) = false := rfl
      have hdrop : ("http://".data ++ t).drop 7 = t := rfl
      simp only [trimPrefixL, hfull, hneg, if_true, if_false, Bool.false_eq_true,
        Bool.true_eq_false, ite_true, ite_false]
      rw [show ("http://".data.length : Nat) = 7 from rfl, hdrop,
        no_https_prefix_of_class t htclass]
      simp
    | false =>
      have h1 : ("http://".data.isPrefixOf ("http:".data ++ body)) =
          ("//".data.isPrefixOf body) := rfl
      have h2 : ("https://".data.isPrefixOf ("http:".data ++ body)) = false := rfl
      simp only [trimPrefixL, h1, h2, hpp, Bool.false_eq_true, ite_false]
  · -- url = "https:" ++ body
    cases hpp : ("//".data.isPrefixOf body) with
    | true =>
      obtain ⟨t, ht⟩ := List.isPrefixOf_iff_prefix.mp hpp
      have htclass : ∀ c ∈ t, isClassChar c = true := by
        intro c hc
        exact hclass c (by rw [← ht]; exact List.mem_append_right _ hc)
      rw [← ht]
      have hre : "https:".data ++ ("//".data ++ t) = "https://".data ++ t := rfl
      rw [hre]
      have hfull : ("https://".data.isPrefixOf ("https://".data ++ t)) = true :=
        List.isPrefixOf_iff_prefix.mpr ⟨t, rfl⟩
      have hneg : ("http://".data.isPrefixOf ("https://".data ++ t)) = false := rfl
      have hdrop : ("https://".data ++ t).drop 8 = t := rfl
      simp only [trimPrefixL, hfull, hneg, if_true, if_false, Bool.false_eq_true,
        Bool.true_eq_false, ite_true, ite_false]
      rfl
    | false =>
      have h1 : ("https://".data.isPrefixOf ("https:".data ++ body)) =
          ("//".data.isPrefixOf body) := rfl
      have h2 : ("http://".data.isPrefixOf ("https:".data ++ body)) = false := rfl
      simp only [trimPrefixL, h1, h2, hpp, Bool.false_eq_true, ite_false]

/-- C9: under hierarchical naming, for every reference produced by the
extractor (i.e. every reference a transfer can be performed for) the
relative destination path computed by `copyFileToDst` equals the source
URL with its `http://` or `https://` scheme prefix stripped and nothing
else changed; in particular `https://a.test/img/x.png` is placed at
relative path `a.test/img/x.png`. -/
theorem hierarchical_naming_strips_scheme :
    (∀ (re : Option (String → Bool)) (page url : String),
        url ∈ extractImageURLs re page →
        dstFileHier url = String.mk (stripSchemeSpec url.data)) ∧
    dstFileHier "https://a.test/img/x.png" = "a.test/img/x.png" := by
  refine ⟨?_, rfl⟩
  intro re page url hmem
  have hfa : url ∈ findAllImages page :=
    (extract_sublist_findAll re page).subset hmem
  exact dstFileHier_strips_scheme url (findAllAux_shape page.data.length page.data url hfa)

/-- Witness for `hierarchical_naming_strips_scheme`. -/
theorem hierarchical_naming_strips_scheme_witness :
    "https://a.test/img/x.png" ∈ extractImageURLs none "https://a.test/img/x.png" ∧
    dstFileHier "https://a.test/img/x.png" =
      String.mk (stripSchemeSpec "https://a.test/img/x.png".data) :=
  ⟨by decide, hierarchical_naming_strips_scheme.1 none "https://a.test/img/x.png"
    "https://a.test/img/x.png" (by decide)⟩

/-- Witness for `zeroRefs_run_behavior`. -/
theorem zeroRefs_run_behavior_witness :
    ∃ r, startRun "/x/a.zip" "" none (fun _ => .err) false [] (fun _ => false) false = .ok r ∧
      extractImageURLs none "" = [] ∧
      (r.written = [] ∧ r.effects.count .closeDst = 1 ∧
       (filepathExtGo "/x/a.zip" = ".zip" →
         r.effects = [.mkdirAll (filepathDirGo "/x/a.zip"), .createFile "/x/a.zip",
           .closeDst]) ∧
       (filepathExtGo "/x/a.zip" = "" → r.effects = [.closeDst])) := by
  refine ⟨_, rfl, rfl, zeroRefs_run_behavior "/x/a.zip" "" none (fun _ => .err) false []
    (fun _ => false) false _ rfl rfl⟩

end Imaget
